import Mathlib

/-!
Verification development for the chainladder-agent orchestration core
(`chainladder_agent/app.py` and `chainladder_agent/agents/supervisor.py`).

The Python code is embedded shallowly:

* `str.strip`, `str.lower` and the substring test `in` are embedded as
  structural-recursive functions on `List Char` (`pyStrip`, `pyLower`,
  `substrMem`), so every definition evaluates inside the kernel;
* `list.sort(key=lambda x: x[2], reverse=True)` is a stable descending
  sort by content length.  A stable sort by a fixed key is extensionally
  unique, so it is embedded as the stable insertion sort
  `sortByLenDesc`; stored tuples `(i, content, len(content))` are kept
  as pairs `(i, content)` since the third component always equals
  `content.length`;
* the supervisor invocation (a remote model call) is a parameter: a
  function producing either a result dictionary (`SupOutcome.ok`, with
  `none` standing for a result lacking the `"messages"` key) or a raised
  exception carrying a message string (`SupOutcome.raises`).
-/

/-- Embedding of Python `str.strip` (left part): drop leading whitespace. -/
def dropLeadingWs : List Char → List Char
  | [] => []
  | c :: cs => if c.isWhitespace then dropLeadingWs cs else c :: cs

/-- Embedding of Python `str.strip`: drop leading and trailing whitespace. -/
def pyStrip (s : String) : String :=
  ⟨(dropLeadingWs (dropLeadingWs s.data).reverse).reverse⟩

/-- Embedding of Python `str.lower` (ASCII case folding). -/
def pyLower (s : String) : String :=
  ⟨s.data.map Char.toLower⟩

/-- `hasPrefixChars p l` holds when the character list `p` is an initial
segment of `l`. -/
def hasPrefixChars : List Char → List Char → Bool
  | [], _ => true
  | _ :: _, [] => false
  | p :: ps, c :: cs => p == c && hasPrefixChars ps cs

/-- `containsSub pat l`: `pat` occurs as a contiguous segment of `l`. -/
def containsSub (pat : List Char) : List Char → Bool
  | [] => hasPrefixChars pat []
  | c :: cs => hasPrefixChars pat (c :: cs) || containsSub pat cs

/-- Embedding of Python `pat in s` (substring membership). -/
def substrMem (pat s : String) : Bool :=
  containsSub pat.data s.data

/-- The fixed dataset list `datasets` of `app.py`. -/
def datasets : List String :=
  ["clrd", "genins", "raa", "abc", "ukmotor", "qtr",
   "quarterly", "auto", "liab", "wkcomp", "prism"]

/-- First sanitisation step of `process_query` (app.py lines 44-48): a
falsy or whitespace-only triangle name is replaced by `datasets[0]`.
`none` stands for Python `None`. -/
def defaultIfBlank : Option String → String
  | none => datasets.headD ""
  | some s => if s == "" || pyStrip s == "" then datasets.headD "" else s

/-- Triangle-name sanitisation of `process_query` (app.py lines 44-54):
after blank-defaulting, a name outside `datasets` is replaced by
`datasets[0]`. -/
def sanitizeTriangle (triangle_name : Option String) : String :=
  if defaultIfBlank triangle_name ∈ datasets then defaultIfBlank triangle_name
  else datasets.headD ""

/-- A message in the supervisor result list.  `ai` embeds an object whose
`type` attribute is the string ai; `assistantDict` embeds a dict with
`role == "assistant"` (a missing or `None` content is the empty string,
matching Python truthiness tests); `other` is any other message. -/
inductive RunMessage where
  | ai (content : String)
  | assistantDict (content : String)
  | other
deriving DecidableEq, Repr

/-- The filter applied to attribute-style ai messages (app.py line 118):
`content and content.strip() != "..." and len(content) > 20 and
"transferring" not in content.lower()`. -/
def aiQualifies (content : String) : Bool :=
  !(content == "") && !(pyStrip content == "...") &&
    decide (20 < content.length) && !(substrMem "transferring" (pyLower content))

/-- The filter applied to dict-style assistant messages (app.py line 124):
`content and len(content) > 20`. -/
def dictQualifies (content : String) : Bool :=
  !(content == "") && decide (20 < content.length)

/-- Whether a message is appended to `ai_messages` (app.py lines 113-126). -/
def qualifies : RunMessage → Bool
  | .ai c => aiQualifies c
  | .assistantDict c => dictQualifies c
  | .other => false

/-- The content carried by a message (empty for non-candidates). -/
def contentOf : RunMessage → String
  | .ai c => c
  | .assistantDict c => c
  | .other => ""

/-- The collection loop of app.py lines 113-126: enumerate the result
messages from index `i` and keep `(index, content)` for each qualifying
message, in order. -/
def collectFrom (i : Nat) : List RunMessage → List (Nat × String)
  | [] => []
  | m :: ms =>
    if qualifies m then (i, contentOf m) :: collectFrom (i + 1) ms
    else collectFrom (i + 1) ms

/-- `ai_messages` as collected by `process_query` (enumeration starts at 0). -/
def collectCandidates (msgs : List RunMessage) : List (Nat × String) :=
  collectFrom 0 msgs

/-- Stable insert for the descending-by-length sort: an element moves
left past exactly the strictly shorter ones, so earlier elements of the
original list stay first among equal lengths. -/
def insDesc (x : Nat × String) : List (Nat × String) → List (Nat × String)
  | [] => [x]
  | y :: ys => if y.2.length ≤ x.2.length then x :: y :: ys else y :: insDesc x ys

/-- Embedding of `ai_messages.sort(key=lambda x: x[2], reverse=True)`
(app.py line 129): the stable descending sort by `len(content)`. -/
def sortByLenDesc : List (Nat × String) → List (Nat × String)
  | [] => []
  | x :: xs => insDesc x (sortByLenDesc xs)

/-- The arbitration step (app.py lines 109-135): collect candidates,
sort by length descending, take the first; `none` when no candidate. -/
def selectCandidate (msgs : List RunMessage) : Option (Nat × String) :=
  (sortByLenDesc (collectCandidates msgs)).head?

/-- The fixed fallback response (app.py line 88). -/
def fallback_response : String :=
  "I couldn\x27t generate a proper response. Please try again."

/-- The response string produced by the arbitration step: the selected
content, or the fallback when nothing qualifies. -/
def selectResponse (msgs : List RunMessage) : String :=
  match selectCandidate msgs with
  | some b => b.2
  | none => fallback_response

/-- Response extraction from the supervisor result (app.py lines 88-136):
`none` models a result without a `"messages"` key, in which case the
fallback survives untouched. -/
def extractResponse : Option (List RunMessage) → String
  | none => fallback_response
  | some msgs => selectResponse msgs

/-- Outcome of constructing and invoking the supervisor: a result value,
or a raised exception carrying its message. -/
inductive SupOutcome where
  | ok (result : Option (List RunMessage))
  | raises (msg : String)

/-- The API-key validation of app.py line 58:
`not api_key or not api_key.strip()`. -/
def apiKeyMissing (api_key : String) : Bool :=
  api_key == "" || pyStrip api_key == ""

/-- The error message returned when no API key is supplied (app.py line 59). -/
def apiKeyErrorMessage : String :=
  "Error: Please provide an OpenAI API key in the field above."

/-- Thread-id resolution of app.py lines 72-77: a falsy `thread_id`
becomes `"default_thread"`. -/
def resolveThreadId : Option String → String
  | some t => if t == "" then "default_thread" else t
  | none => "default_thread"

/-- Shallow embedding of `process_query` (app.py lines 24-149).  The
conversation history is a list of `(user message, assistant message)`
pairs.  `supervisor` abstracts `create_chainladder_supervisor(api_key)`
followed by `.invoke`, as a function of the user message, the sanitised
triangle name placed in `selected_triangle`, and the configured thread
id; its `SupOutcome.raises` branch covers any exception reaching the
`except` handler of lines 145-149. -/
def process_query (message : String) (triangle_name : Option String)
    (history : List (String × String)) (api_key : String)
    (thread_id : Option String)
    (supervisor : String → String → String → SupOutcome) :
    List (String × String) :=
  let tname := sanitizeTriangle triangle_name
  if apiKeyMissing api_key then
    history ++ [(message, apiKeyErrorMessage)]
  else
    match supervisor message tname (resolveThreadId thread_id) with
    | .ok result => history ++ [(message, extractResponse result)]
    | .raises e => history ++ [(message, "Error: " ++ e)]

/-- Triangle-name detection of `on_submit` (app.py lines 235-238): the
first dataset whose lowercase name occurs in the lowercased message. -/
def detectTriangle (msg : String) : Option String :=
  datasets.find? (fun d => substrMem (pyLower d) (pyLower msg))

/-- Thread-id derivation of `on_submit` (app.py line 242):
`"user_thread_" + str(hash(str(history)) if history else "new")`.
`hashStr` abstracts Python `hash(str(·))` on the history value. -/
def threadIdFor (hashStr : List (String × String) → Int)
    (history : List (String × String)) : String :=
  "user_thread_" ++
    (match history with
     | [] => "new"
     | _ :: _ => toString (hashStr history))

/-- Shallow embedding of the `on_submit` callback (app.py lines 226-246),
returning the new chatbot history (the cleared-input UI update carries
no state and is omitted). -/
def on_submit (msg : String) (history : List (String × String))
    (key : String) (hashStr : List (String × String) → Int)
    (supervisor : String → String → String → SupOutcome) :
    List (String × String) :=
  if pyStrip msg == "" then history
  else
    process_query msg (detectTriangle msg) history key
      (some (threadIdFor hashStr history)) supervisor

/-- The four specialized agents created by `create_chainladder_supervisor`
(supervisor.py lines 30-33), by their declared names. -/
def created_specialized_agents : List String :=
  ["data_agent", "analysis_agent", "visualization_agent", "explanation_agent"]

/-- The agents handed to `create_supervisor` and hence registered with
the supervisor workflow (supervisor.py line 37). -/
def supervisor_workflow_agents : List String :=
  ["analysis_agent", "visualization_agent", "explanation_agent"]

/-! ### Supporting lemmas -/

theorem insDesc_ne_nil (x : Nat × String) (l : List (Nat × String)) :
    insDesc x l ≠ [] := by
  cases l with
  | nil => simp [insDesc]
  | cons y ys =>
    simp only [insDesc]
    split <;> simp

theorem sortByLenDesc_eq_nil_iff (l : List (Nat × String)) :
    sortByLenDesc l = [] ↔ l = [] := by
  cases l with
  | nil => simp [sortByLenDesc]
  | cons x xs =>
    simp only [sortByLenDesc]
    constructor
    · intro h
      exact absurd h (insDesc_ne_nil x (sortByLenDesc xs))
    · intro h
      exact absurd h (by simp)

theorem mem_insDesc (a x : Nat × String) (l : List (Nat × String)) :
    a ∈ insDesc x l ↔ a = x ∨ a ∈ l := by
  induction l with
  | nil => simp [insDesc]
  | cons y ys ih =>
    simp only [insDesc]
    split
    · simp
    · simp only [List.mem_cons, ih]
      tauto

theorem mem_sortByLenDesc (a : Nat × String) (l : List (Nat × String)) :
    a ∈ sortByLenDesc l ↔ a ∈ l := by
  induction l with
  | nil => simp [sortByLenDesc]
  | cons x xs ih =>
    simp only [sortByLenDesc, mem_insDesc, ih, List.mem_cons]

theorem head_sortByLenDesc :
    ∀ (l : List (Nat × String)) (b : Nat × String) (t : List (Nat × String)),
      l.Pairwise (fun a c => a.1 < c.1) → sortByLenDesc l = b :: t →
      b ∈ l ∧ ∀ p ∈ l, p.2.length ≤ b.2.length ∧
        (p.2.length = b.2.length → b.1 ≤ p.1)
  | [], b, t, _, h => by simp [sortByLenDesc] at h
  | x :: xs, b, t, hpw, h => by
    rw [List.pairwise_cons] at hpw
    obtain ⟨hx, hxs⟩ := hpw
    cases hs : sortByLenDesc xs with
    | nil =>
      have hxsnil : xs = [] := (sortByLenDesc_eq_nil_iff xs).mp hs
      subst hxsnil
      simp only [sortByLenDesc, insDesc] at h
      injection h with h1 h2
      subst h1
      refine ⟨by simp, ?_⟩
      intro p hp
      simp only [List.mem_singleton] at hp
      subst hp
      exact ⟨le_refl _, fun _ => le_refl _⟩
    | cons c t2 =>
      have ih := head_sortByLenDesc xs c t2 hxs hs
      obtain ⟨hcmem, hcbound⟩ := ih
      simp only [sortByLenDesc, hs, insDesc] at h
      by_cases hle : c.2.length ≤ x.2.length
      · rw [if_pos hle] at h
        have hbx : b = x := by injection h with h1 _; exact h1.symm
        subst hbx
        refine ⟨by simp, ?_⟩
        intro p hp
        rcases List.mem_cons.mp hp with rfl | hpxs
        · exact ⟨le_refl _, fun _ => le_refl _⟩
        · refine ⟨le_trans (hcbound p hpxs).1 hle, ?_⟩
          intro _
          exact le_of_lt (hx p hpxs)
      · rw [if_neg hle] at h
        have hbc : b = c := by injection h with h1 _; exact h1.symm
        subst hbc
        have hxlt : x.2.length < b.2.length := lt_of_not_le hle
        refine ⟨List.mem_cons_of_mem x hcmem, ?_⟩
        intro p hp
        rcases List.mem_cons.mp hp with rfl | hpxs
        · exact ⟨le_of_lt hxlt, fun heq => absurd heq (ne_of_lt hxlt)⟩
        · exact hcbound p hpxs

theorem collectFrom_index_le (ms : List RunMessage) :
    ∀ (i : Nat), ∀ p ∈ collectFrom i ms, i ≤ p.1 := by
  induction ms with
  | nil => intro i p hp; simp [collectFrom] at hp
  | cons m ms ih =>
    intro i p hp
    simp only [collectFrom] at hp
    by_cases hq : qualifies m
    · rw [if_pos hq] at hp
      rcases List.mem_cons.mp hp with rfl | hrest
      · exact le_refl _
      · exact le_trans (Nat.le_succ i) (ih (i + 1) p hrest)
    · rw [if_neg hq] at hp
      exact le_trans (Nat.le_succ i) (ih (i + 1) p hp)

theorem collectFrom_pairwise (ms : List RunMessage) :
    ∀ (i : Nat), (collectFrom i ms).Pairwise (fun a c => a.1 < c.1) := by
  induction ms with
  | nil => intro i; simp [collectFrom]
  | cons m ms ih =>
    intro i
    simp only [collectFrom]
    by_cases hq : qualifies m
    · rw [if_pos hq]
      refine List.Pairwise.cons ?_ (ih (i + 1))
      intro p hp
      exact lt_of_lt_of_le (Nat.lt_succ_self i) (collectFrom_index_le ms (i + 1) p hp)
    · rw [if_neg hq]
      exact ih (i + 1)

theorem mem_collectFrom (ms : List RunMessage) :
    ∀ (i : Nat), ∀ p ∈ collectFrom i ms,
      ∃ k m, ms.get? k = some m ∧ qualifies m = true ∧ p = (i + k, contentOf m) := by
  induction ms with
  | nil => intro i p hp; simp [collectFrom] at hp
  | cons m ms ih =>
    intro i p hp
    simp only [collectFrom] at hp
    by_cases hq : qualifies m
    · rw [if_pos hq] at hp
      rcases List.mem_cons.mp hp with rfl | hrest
      · exact ⟨0, m, by simp, hq, by simp⟩
      · obtain ⟨k, m2, hget, hqm, hpeq⟩ := ih (i + 1) p hrest
        refine ⟨k + 1, m2, by simpa using hget, hqm, ?_⟩
        rw [hpeq]
        congr 1
        omega
    · rw [if_neg hq] at hp
      obtain ⟨k, m2, hget, hqm, hpeq⟩ := ih (i + 1) p hp
      refine ⟨k + 1, m2, by simpa using hget, hqm, ?_⟩
      rw [hpeq]
      congr 1
      omega

theorem collectFrom_of_filter_nil (ms : List RunMessage)
    (hf : ms.filter qualifies = []) : ∀ i, collectFrom i ms = [] := by
  induction ms with
  | nil => intro i; simp [collectFrom]
  | cons m ms ih =>
    intro i
    rw [List.filter_cons] at hf
    by_cases hq : qualifies m
    · rw [if_pos hq] at hf
      exact absurd hf (by simp)
    · rw [if_neg hq] at hf
      simp only [collectFrom, if_neg hq]
      exact ih hf (i + 1)

theorem collectFrom_of_filter_singleton (ms : List RunMessage) (m : RunMessage)
    (hf : ms.filter qualifies = [m]) :
    ∀ i, ∃ j, collectFrom i ms = [(j, contentOf m)] := by
  induction ms with
  | nil => intro i; simp [List.filter] at hf
  | cons m2 ms ih =>
    intro i
    rw [List.filter_cons] at hf
    by_cases hq : qualifies m2
    · rw [if_pos hq] at hf
      injection hf with h1 h2
      subst h1
      refine ⟨i, ?_⟩
      simp only [collectFrom, if_pos hq]
      rw [collectFrom_of_filter_nil ms h2 (i + 1)]
    · rw [if_neg hq] at hf
      simp only [collectFrom, if_neg hq]
      exact ih hf (i + 1)

theorem collectFrom_ne_nil_of_mem (ms : List RunMessage) (m : RunMessage)
    (hm : m ∈ ms) (hq : qualifies m = true) : ∀ i, collectFrom i ms ≠ [] := by
  induction ms with
  | nil => simp at hm
  | cons m2 ms ih =>
    intro i
    simp only [collectFrom]
    rcases List.mem_cons.mp hm with rfl | hrest
    · rw [if_pos hq]; simp
    · by_cases hq2 : qualifies m2
      · rw [if_pos hq2]; simp
      · rw [if_neg hq2]
        exact ih hrest (i + 1)

/-! ### Claim theorems -/

/-- C1 counterexample: a dict-style assistant message whose content
contains the substring transferring (case-insensitively) and is longer
than 20 characters IS selected by the arbitration step, because the
dict branch of the filter (app.py line 124) checks only truthiness and
length. -/
theorem C1_counterexample :
    qualifies (RunMessage.assistantDict "Transferring to data_agent for plots") = true ∧
    substrMem "transferring"
      (pyLower "Transferring to data_agent for plots") = true ∧
    selectCandidate [RunMessage.assistantDict "Transferring to data_agent for plots"] =
      some (0, "Transferring to data_agent for plots") ∧
    selectResponse [RunMessage.assistantDict "Transferring to data_agent for plots"] =
      "Transferring to data_agent for plots" := by
  refine ⟨by decide, by decide, by decide, by decide⟩

/-- C1 amended: any selected content is longer than 20 characters (hence
never exactly the placeholder), and when the selected message is a typed
ai message its content additionally does not strip to the placeholder
and does not contain transferring case-insensitively; a dict-style
assistant message is subject only to the truthiness and length filters.
When no message qualifies, selection yields no candidate and the fixed
fallback is used. -/
theorem C1_amended_exclusions :
    (∀ (msgs : List RunMessage) (i : Nat) (c : String),
      selectCandidate msgs = some (i, c) →
        (20 < c.length ∧ c ≠ "...") ∧
        (msgs.get? i = some (RunMessage.ai c) →
          pyStrip c ≠ "..." ∧ substrMem "transferring" (pyLower c) = false)) ∧
    (∀ msgs : List RunMessage,
      selectCandidate msgs = none → selectResponse msgs = fallback_response) := by
  constructor
  · intro msgs i c hsel
    unfold selectCandidate at hsel
    cases hs : sortByLenDesc (collectCandidates msgs) with
    | nil => rw [hs] at hsel; simp at hsel
    | cons b t =>
      rw [hs] at hsel
      simp only [List.head?] at hsel
      injection hsel with hb
      subst hb
      have hmem : (i, c) ∈ collectCandidates msgs := by
        rw [← mem_sortByLenDesc, hs]; simp
      obtain ⟨k, m, hget, hq, hpeq⟩ := mem_collectFrom msgs 0 (i, c) hmem
      injection hpeq with hi hc
      rw [Nat.zero_add] at hi
      subst hi
      subst hc
      have hlen : 20 < (contentOf m).length := by
        cases m with
        | ai c2 =>
          simp only [aiQualifies, qualifies, Bool.and_eq_true,
            decide_eq_true_eq] at hq
          exact hq.1.2
        | assistantDict c2 =>
          simp only [dictQualifies, qualifies, Bool.and_eq_true,
            decide_eq_true_eq] at hq
          exact hq.2
        | other => simp [qualifies] at hq
      refine ⟨⟨hlen, ?_⟩, ?_⟩
      · intro heq
        rw [heq] at hlen
        exact absurd hlen (by decide)
      · intro hgetai
        rw [hget] at hgetai
        injection hgetai with hm
        rw [hm] at hq
        simp only [qualifies, aiQualifies, Bool.and_eq_true,
          Bool.not_eq_true', beq_eq_false_iff_ne, decide_eq_true_eq] at hq
        exact ⟨hq.1.1.2, hq.2⟩
  · intro msgs hnone
    unfold selectResponse
    rw [hnone]

/-- C1 amended witness: the theorem applied to a concrete run. -/
theorem C1_amended_exclusions_witness :
    (pyStrip "This is a sufficiently long answer." ≠ "..." ∧
      substrMem "transferring" (pyLower "This is a sufficiently long answer.") = false) ∧
    selectResponse [] = fallback_response := by
  constructor
  · exact (C1_amended_exclusions.1 [RunMessage.ai "This is a sufficiently long answer."] 0
      "This is a sufficiently long answer." (by decide)).2 (by decide)
  · exact C1_amended_exclusions.2 [] (by decide)

/-- C2: whenever at least one message qualifies, arbitration selects a
qualifying candidate of greatest content length, and among candidates of
equal greatest length the one with the smallest sequence index. -/
theorem C2_longest_earliest (msgs : List RunMessage)
    (hq : ∃ m ∈ msgs, qualifies m = true) :
    ∃ b, selectCandidate msgs = some b ∧
      b ∈ collectCandidates msgs ∧
      (∃ m, msgs.get? b.1 = some m ∧ qualifies m = true ∧ b.2 = contentOf m) ∧
      ∀ p ∈ collectCandidates msgs,
        p.2.length ≤ b.2.length ∧ (p.2.length = b.2.length → b.1 ≤ p.1) := by
  obtain ⟨m, hmem, hqm⟩ := hq
  have hne : collectCandidates msgs ≠ [] :=
    collectFrom_ne_nil_of_mem msgs m hmem hqm 0
  cases hs : sortByLenDesc (collectCandidates msgs) with
  | nil => exact absurd ((sortByLenDesc_eq_nil_iff _).mp hs) hne
  | cons b t =>
    have hhead := head_sortByLenDesc (collectCandidates msgs) b t
      (collectFrom_pairwise msgs 0) hs
    refine ⟨b, ?_, hhead.1, ?_, hhead.2⟩
    · unfold selectCandidate
      rw [hs]
      rfl
    · obtain ⟨k, m2, hget, hq2, hpeq⟩ := mem_collectFrom msgs 0 b hhead.1
      refine ⟨m2, ?_, hq2, ?_⟩
      · rw [hpeq]; simpa using hget
      · rw [hpeq]

/-- C2 witness: two qualifying candidates of lengths 25 and 30; the
longer, later one is selected. -/
theorem C2_longest_earliest_witness :
    (∃ b, selectCandidate [RunMessage.ai "aaaaaaaaaaaaaaaaaaaaaaaaa",
        RunMessage.ai "bbbbbbbbbbbbbbbbbbbbbbbbbbbbbb"] = some b ∧
      b ∈ collectCandidates [RunMessage.ai "aaaaaaaaaaaaaaaaaaaaaaaaa",
        RunMessage.ai "bbbbbbbbbbbbbbbbbbbbbbbbbbbbbb"] ∧
      (∃ m, [RunMessage.ai "aaaaaaaaaaaaaaaaaaaaaaaaa",
        RunMessage.ai "bbbbbbbbbbbbbbbbbbbbbbbbbbbbbb"].get? b.1 = some m ∧
          qualifies m = true ∧ b.2 = contentOf m) ∧
      ∀ p ∈ collectCandidates [RunMessage.ai "aaaaaaaaaaaaaaaaaaaaaaaaa",
          RunMessage.ai "bbbbbbbbbbbbbbbbbbbbbbbbbbbbbb"],
        p.2.length ≤ b.2.length ∧ (p.2.length = b.2.length → b.1 ≤ p.1)) ∧
    selectCandidate [RunMessage.ai "aaaaaaaaaaaaaaaaaaaaaaaaa",
        RunMessage.ai "bbbbbbbbbbbbbbbbbbbbbbbbbbbbbb"] =
      some (1, "bbbbbbbbbbbbbbbbbbbbbbbbbbbbbb") := by
  constructor
  · exact C2_longest_earliest _ ⟨RunMessage.ai "aaaaaaaaaaaaaaaaaaaaaaaaa", by decide, by decide⟩
  · decide

/-- C8: arbitration is deterministic (equal inputs give equal results),
and whenever exactly one message in the list qualifies, the selected
response is the content of that message, independent of how
non-qualifying messages are arranged around it. -/
theorem C8_determinism_invariance :
    (∀ msgsA msgsB : List RunMessage, msgsA = msgsB →
      selectCandidate msgsA = selectCandidate msgsB) ∧
    (∀ (msgs : List RunMessage) (m : RunMessage),
      msgs.filter qualifies = [m] → selectResponse msgs = contentOf m) := by
  constructor
  · intro msgsA msgsB h
    rw [h]
  · intro msgs m hf
    obtain ⟨j, hcol⟩ := collectFrom_of_filter_singleton msgs m hf 0
    unfold selectResponse selectCandidate collectCandidates
    rw [hcol]
    simp [sortByLenDesc, insDesc]

/-- C8 witness: the same single qualifying message surrounded by
different non-qualifying chatter always yields the same response. -/
theorem C8_determinism_invariance_witness :
    selectCandidate [RunMessage.other] = selectCandidate [RunMessage.other] ∧
    selectResponse [RunMessage.ai "...", RunMessage.other,
      RunMessage.ai "This is the only qualifying answer.", RunMessage.ai "short"] =
      contentOf (RunMessage.ai "This is the only qualifying answer.") ∧
    selectResponse [RunMessage.ai "This is the only qualifying answer.",
      RunMessage.assistantDict "tiny"] =
      contentOf (RunMessage.ai "This is the only qualifying answer.") := by
  refine ⟨C8_determinism_invariance.1 _ _ rfl, ?_, ?_⟩
  · exact C8_determinism_invariance.2 _ _ (by decide)
  · exact C8_determinism_invariance.2 _ _ (by decide)

/-- C3 counterexample: the data agent, although created, is not among
the agents registered with the supervisor workflow, which registers
only three of the four created agents (supervisor.py line 37). -/
theorem C3_counterexample :
    "data_agent" ∈ created_specialized_agents ∧
    "data_agent" ∉ supervisor_workflow_agents ∧
    supervisor_workflow_agents.length = 3 := by
  refine ⟨by decide, by decide, by decide⟩

/-- C3 amended: four specialized agents are created, but only the
analysis, visualization and explanation agents are registered with the
supervisor workflow that routes a turn; the data-preparation agent is
created and never registered. -/
theorem C3_amended_registration :
    created_specialized_agents =
      ["data_agent", "analysis_agent", "visualization_agent", "explanation_agent"] ∧
    supervisor_workflow_agents =
      ["analysis_agent", "visualization_agent", "explanation_agent"] ∧
    (∀ a ∈ supervisor_workflow_agents, a ∈ created_specialized_agents) ∧
    "data_agent" ∉ supervisor_workflow_agents := by
  refine ⟨rfl, rfl, by decide, by decide⟩

/-- C4: when the supervisor returns without raising and no message in
its result qualifies under the arbitration filter (including a result
with no message list at all), the turn records exactly the fixed
fallback response and no error. -/
theorem C4_fallback_surfaced (message : String) (triangle_name : Option String)
    (history : List (String × String)) (api_key : String)
    (thread_id : Option String)
    (supervisor : String → String → String → SupOutcome)
    (result : Option (List RunMessage))
    (hkey : apiKeyMissing api_key = false)
    (hsup : supervisor message (sanitizeTriangle triangle_name)
      (resolveThreadId thread_id) = SupOutcome.ok result)
    (hnoq : ∀ msgs, result = some msgs → msgs.filter qualifies = []) :
    process_query message triangle_name history api_key thread_id supervisor =
      history ++ [(message, fallback_response)] := by
  unfold process_query
  rw [if_neg (by simp [hkey]), hsup]
  cases result with
  | none => rfl
  | some msgs =>
    have hf := hnoq msgs rfl
    have hcol := collectFrom_of_filter_nil msgs hf 0
    simp only [extractResponse, selectResponse, selectCandidate, collectCandidates]
    rw [hcol]
    rfl

/-- C4 witness: a supervisor result whose only message is the
placeholder produces the fallback. -/
theorem C4_fallback_surfaced_witness :
    process_query "hi" none [] "sk-key" none
      (fun _ _ _ => SupOutcome.ok (some [RunMessage.ai "..."])) =
      [("hi", fallback_response)] := by
  exact C4_fallback_surfaced "hi" none [] "sk-key" none _
    (some [RunMessage.ai "..."]) (by decide) rfl
    (by intro msgs h; injection h with h2; subst h2; decide)

/-- C5: when the supervisor call raises an exception with message `e`,
the turn still completes: the history is extended by exactly the pair
`(message, "Error: " ++ e)` and nothing is propagated. -/
theorem C5_exception_recovered (message : String) (triangle_name : Option String)
    (history : List (String × String)) (api_key : String)
    (thread_id : Option String)
    (supervisor : String → String → String → SupOutcome) (e : String)
    (hkey : apiKeyMissing api_key = false)
    (hsup : supervisor message (sanitizeTriangle triangle_name)
      (resolveThreadId thread_id) = SupOutcome.raises e) :
    process_query message triangle_name history api_key thread_id supervisor =
      history ++ [(message, "Error: " ++ e)] := by
  unfold process_query
  rw [if_neg (by simp [hkey]), hsup]

/-- C5 witness: a raising supervisor yields an Error-prefixed assistant
message appended to the prior history. -/
theorem C5_exception_recovered_witness :
    process_query "hi" none [("a", "b")] "sk-key" none
      (fun _ _ _ => SupOutcome.raises "boom") =
      [("a", "b"), ("hi", "Error: boom")] := by
  exact C5_exception_recovered "hi" none [("a", "b")] "sk-key" none _ "boom"
    (by decide) rfl

/-- C6: with a missing or blank API key the turn returns the fixed
configuration-error message, the result does not depend on the
supervisor at all (it is never constructed or invoked), and the prior
history value is preserved as-is at the front of the result. -/
theorem C6_config_error_before_supervisor (message : String)
    (triangle_name : Option String) (history : List (String × String))
    (api_key : String) (thread_id : Option String)
    (supA supB : String → String → String → SupOutcome)
    (hkey : apiKeyMissing api_key = true) :
    process_query message triangle_name history api_key thread_id supA =
      history ++ [(message, apiKeyErrorMessage)] ∧
    process_query message triangle_name history api_key thread_id supA =
      process_query message triangle_name history api_key thread_id supB ∧
    (process_query message triangle_name history api_key thread_id supA).take
      history.length = history := by
  have h1 : process_query message triangle_name history api_key thread_id supA =
      history ++ [(message, apiKeyErrorMessage)] := by
    unfold process_query
    rw [if_pos (by simp [hkey])]
  have h2 : process_query message triangle_name history api_key thread_id supB =
      history ++ [(message, apiKeyErrorMessage)] := by
    unfold process_query
    rw [if_pos (by simp [hkey])]
  refine ⟨h1, h1.trans h2.symm, ?_⟩
  rw [h1, List.take_left]

/-- C6 witness: an empty key produces the configuration error for any
supervisor, leaving the prior history intact. -/
theorem C6_config_error_before_supervisor_witness :
    process_query "hi" none [("a", "b")] "" none
      (fun _ _ _ => SupOutcome.ok none) =
      [("a", "b"), ("hi", apiKeyErrorMessage)] ∧
    process_query "hi" none [("a", "b")] "" none
      (fun _ _ _ => SupOutcome.ok none) =
      process_query "hi" none [("a", "b")] "" none
        (fun _ _ _ => SupOutcome.raises "boom") ∧
    (process_query "hi" none [("a", "b")] "" none
      (fun _ _ _ => SupOutcome.ok none)).take 1 = [("a", "b")] := by
  exact C6_config_error_before_supervisor "hi" none [("a", "b")] "" none _ _
    (by decide)

/-- C7: the derived session key is a deterministic function of the prior
history, the empty history always resolves to the same fixed key
(independently of the hash function), and an absent thread id resolves
to the fixed default key. -/
theorem C7_session_key_resolution (f g : List (String × String) → Int)
    (histA histB : List (String × String)) (heq : histA = histB) :
    threadIdFor f histA = threadIdFor f histB ∧
    threadIdFor f [] = "user_thread_new" ∧
    threadIdFor g [] = threadIdFor f [] ∧
    resolveThreadId none = "default_thread" := by
  refine ⟨by rw [heq], rfl, rfl, rfl⟩

/-- C7 witness: the theorem applied to concrete hash functions and
identical histories. -/
theorem C7_session_key_resolution_witness :
    threadIdFor (fun _ => (0 : Int)) [("a", "b")] =
      threadIdFor (fun _ => (0 : Int)) [("a", "b")] ∧
    threadIdFor (fun _ => (0 : Int)) [] = "user_thread_new" ∧
    threadIdFor (fun _ => (1 : Int)) [] = threadIdFor (fun _ => (0 : Int)) [] ∧
    resolveThreadId none = "default_thread" := by
  exact C7_session_key_resolution (fun _ => (0 : Int)) (fun _ => (1 : Int))
    [("a", "b")] [("a", "b")] rfl

theorem sanitizeTriangle_mem (tn : Option String) :
    sanitizeTriangle tn ∈ datasets := by
  unfold sanitizeTriangle
  split
  · assumption
  · decide

theorem datasets_not_blank :
    ∀ r ∈ datasets, (r == "" || pyStrip r == "") = false := by
  decide

theorem sanitizeTriangle_of_mem (r : String) (hr : r ∈ datasets) :
    sanitizeTriangle (some r) = r := by
  have hblank := datasets_not_blank r hr
  simp only [sanitizeTriangle, defaultIfBlank]
  rw [hblank]
  simp only [Bool.false_eq_true, if_false]
  rw [if_pos hr]

/-- C9: the triangle name forwarded to the supervisor is always one of
the 11 fixed datasets: a missing, blank or unrecognized name becomes
the first dataset clrd, and `process_query` behaves exactly as if the
sanitised name had been passed in. -/
theorem C9_selected_triangle_invariant (triangle_name : Option String) :
    sanitizeTriangle triangle_name ∈ datasets ∧
    datasets.length = 11 ∧
    datasets.headD "" = "clrd" ∧
    (triangle_name = none → sanitizeTriangle triangle_name = "clrd") ∧
    (∀ s, triangle_name = some s → pyStrip s = "" →
      sanitizeTriangle triangle_name = "clrd") ∧
    (∀ s, triangle_name = some s → s ∉ datasets →
      sanitizeTriangle triangle_name = "clrd") ∧
    (∀ message history api_key thread_id supervisor,
      process_query message triangle_name history api_key thread_id supervisor =
        process_query message (some (sanitizeTriangle triangle_name)) history
          api_key thread_id supervisor) := by
  refine ⟨sanitizeTriangle_mem triangle_name, rfl, rfl, ?_, ?_, ?_, ?_⟩
  · intro h
    subst h
    rfl
  · intro s h hstrip
    subst h
    simp only [sanitizeTriangle, defaultIfBlank]
    rw [hstrip]
    simp
    decide
  · intro s h hnotin
    subst h
    simp only [sanitizeTriangle, defaultIfBlank]
    by_cases hblank : (s == "" || pyStrip s == "") = true
    · rw [if_pos hblank]
      simp
      decide
    · rw [if_neg hblank]
      rw [if_neg hnotin]
      decide
  · intro message history api_key thread_id supervisor
    unfold process_query
    rw [sanitizeTriangle_of_mem (sanitizeTriangle triangle_name)
      (sanitizeTriangle_mem triangle_name)]

/-- C9 witness: an unrecognized triangle name is forwarded as clrd. -/
theorem C9_selected_triangle_invariant_witness :
    sanitizeTriangle (some "bogus") ∈ datasets ∧
    sanitizeTriangle (some "bogus") = "clrd" := by
  refine ⟨(C9_selected_triangle_invariant (some "bogus")).1, ?_⟩
  exact (C9_selected_triangle_invariant (some "bogus")).2.2.2.2.2.1 "bogus" rfl
    (by decide)

/-- C10: a whitespace-only submission leaves the history unchanged and
never reaches the query-processing pipeline: the result is independent
of the API key, the hash function and the supervisor. -/
theorem C10_blank_submit_noop (msg : String) (history : List (String × String))
    (keyA keyB : String) (hashA hashB : List (String × String) → Int)
    (supA supB : String → String → String → SupOutcome)
    (hws : pyStrip msg = "") :
    on_submit msg history keyA hashA supA = history ∧
    on_submit msg history keyA hashA supA = on_submit msg history keyB hashB supB := by
  have h : ∀ (k : String) (f : List (String × String) → Int)
      (sup : String → String → String → SupOutcome),
      on_submit msg history k f sup = history := by
    intro k f sup
    unfold on_submit
    rw [if_pos (by simp [hws])]
  exact ⟨h keyA hashA supA, (h keyA hashA supA).trans (h keyB hashB supB).symm⟩

/-- C10 witness: a blank message is a no-op for any key and supervisor. -/
theorem C10_blank_submit_noop_witness :
    on_submit "   " [("a", "b")] "k1" (fun _ => (0 : Int))
      (fun _ _ _ => SupOutcome.ok none) = [("a", "b")] ∧
    on_submit "   " [("a", "b")] "k1" (fun _ => (0 : Int))
      (fun _ _ _ => SupOutcome.ok none) =
    on_submit "   " [("a", "b")] "k2" (fun _ => (1 : Int))
      (fun _ _ _ => SupOutcome.raises "boom") := by
  exact C10_blank_submit_noop "   " [("a", "b")] "k1" "k2" (fun _ => (0 : Int))
    (fun _ => (1 : Int)) (fun _ _ _ => SupOutcome.ok none)
    (fun _ _ _ => SupOutcome.raises "boom") (by decide)
